import Mathlib

/-!
Shallow embedding of the core of the Piper-TTS LiveKit plugin repository:
the synthesis bridge (`custom_tts/PiperTTSPluginLocal.py`, class `PiperStream`)
and the latency correlation tracker (`agent_latency_test.py`, class
`LatencyTracker`), together with theorems settling the specification claims.

Machine numbers: the int16 samples of the WAV decode path are modelled as `Int`
with explicit wrapping where the code can wrap; float durations are modelled as
`ℚ` (every operation performed on them here — `* 1000.0`, sums of three values,
`(a + b) / 2` for int16 `a`, `b` — is exact in IEEE float64, so the rational
model agrees with the float computation on the inputs that occur).
-/

namespace PiperSpec

/-! ### The WAV container and the numpy decode pipeline (`PiperStream._read`) -/

/-- A parsed WAV container as exposed by Python's `wave` module: the header
fields `getnchannels()` and `getsampwidth()`, and the raw frame bytes returned
by `readframes(getnframes())` (each byte `< 256`). -/
structure Container where
  nchannels : Nat
  sampwidth : Nat
  data : List Nat
deriving Repr, DecidableEq

/-- The signed 16-bit value of two little-endian bytes, as in the
`np.int16` view of a byte buffer. -/
def int16OfBytes (lo hi : Nat) : Int :=
  let u : Nat := lo % 256 + 256 * (hi % 256)
  if u < 32768 then (u : Int) else (u : Int) - 65536

/-- `np.frombuffer(bytes, dtype=np.int16)`: reinterpret the byte string as
int16 values; `none` models the ValueError raised when the buffer length is not
a multiple of the item size. -/
def fromBufferInt16 : List Nat → Option (List Int)
  | [] => some []
  | lo :: hi :: rest => (fromBufferInt16 rest).map (fun l => int16OfBytes lo hi :: l)
  | [_] => none

/-- `audio.reshape(-1, 2)`: group the samples into frames of two; `none` models
the ValueError raised when the sample count is odd. -/
def reshapePairs : List Int → Option (List (Int × Int))
  | [] => some []
  | a :: b :: rest => (reshapePairs rest).map (fun l => (a, b) :: l)
  | [_] => none

/-- Truncation of a rational toward zero, the rounding a cast from float64 to
an integer type performs. -/
def ratTrunc (q : ℚ) : ℤ := if 0 ≤ q then ⌊q⌋ else -⌊-q⌋

/-- Wrap an integer into the signed 16-bit range, as numpy's C-style cast to
`np.int16` does for out-of-range values. -/
def wrapInt16 (v : ℤ) : ℤ :=
  let u := v % 65536
  if u < 32768 then u else u - 65536

/-- `.mean(axis=1).astype(np.int16)` on one stereo frame: the float64 mean of
two int16 samples is exact (a dyadic number of small magnitude), and the cast
back to int16 truncates toward zero. -/
def meanAstypeInt16 (a b : ℤ) : ℤ := wrapInt16 (ratTrunc (((a : ℚ) + (b : ℚ)) / 2))

/-- Spec-side definition (for the refinement in claim C2): "downmix to mono by
averaging the two channels per sample frame, truncating to the original integer
sample width" — direct integer averaging with division truncating toward
zero. -/
def specDirectIntAvg (a b : ℤ) : ℤ := (a + b).tdiv 2

/-- Failures of the decode step. -/
inductive ReadError
  | waveError
  | valueError
deriving Repr, DecidableEq

/-- `PiperStream._read`: open the WAV file (`none` stands for a file `wave`
cannot parse, raising `wave.Error`), view the frame bytes as int16, and downmix
by per-frame mean exactly when the header reports two channels. Every other
channel count passes the samples through unchanged, and the sample width is
never inspected. -/
def readWav : Option Container → Except ReadError (List Int)
  | none => .error .waveError
  | some c =>
    match fromBufferInt16 c.data with
    | none => .error .valueError
    | some samples =>
      if c.nchannels == 2 then
        match reshapePairs samples with
        | none => .error .valueError
        | some frames => .ok (frames.map (fun p => meanAstypeInt16 p.1 p.2))
      else .ok samples

/-! ### The filesystem and `PiperStream._run` -/

/-- The filesystem as the bridge observes it: a map from path to file content
(content `none` is a file `wave` cannot parse, such as the empty file
`NamedTemporaryFile` creates), plus a per-path executability flag, which the
code never reads. -/
structure FS where
  contents : String → Option (Option Container)
  executable : String → Bool

/-- `os.path.exists`. -/
def FS.pathExists (fs : FS) (p : String) : Bool := (fs.contents p).isSome

/-- `tempfile.NamedTemporaryFile(suffix=..., delete=False)`: create an empty
file at `p`. -/
def FS.create (fs : FS) (p : String) : FS :=
  { fs with contents := fun q => if q = p then some none else fs.contents q }

/-- The external engine writing its output container to `p`. -/
def FS.write (fs : FS) (p : String) (c : Option Container) : FS :=
  { fs with contents := fun q => if q = p then some c else fs.contents q }

/-- `os.unlink(p)` wrapped in `try ... except: pass`: removes the file when
present, silently does nothing otherwise. -/
def FS.unlink (fs : FS) (p : String) : FS :=
  { fs with contents := fun q => if q = p then none else fs.contents q }

/-- The errors `_run` can propagate. -/
inductive RunError
  | notFound (path : String)
  | engineFailure
  | decodeFailure (e : ReadError)
  | cancelled
deriving Repr, DecidableEq

/-- The environment's resolution of the external engine invocation and of the
two awaited executor calls: the caller may cancel during either await, the
subprocess may fail to spawn or exit non-zero (`subprocess.run(..., check=True)`
raising), or the engine writes some (possibly unparseable) container.

Cancellation during the `_generate` await is special: the executor job is not
cancellable once started, so the subprocess keeps running after the coroutine's
`finally` has executed. `cancelDuringGenerate lateWrite` records what the
still-running engine does to the temp path after the cleanup: `some c` means it
writes its output container `c` there after the unlink (re-creating the path),
`none` covers the benign sub-cases — the engine produced no output (spawn
failure, engine error, terminated), or its write landed before the cleanup ran
and was therefore unlinked with the rest. -/
inductive EngineOutcome
  | cancelDuringGenerate (lateWrite : Option (Option Container))
  | spawnFailure
  | nonzeroExit
  | wrote (c : Option Container) (cancelDuringRead : Bool)

/-- Observable filesystem/process actions of one `_run` call, in order. -/
inductive BridgeAction
  | createTemp (p : String)
  | spawnEngine
  | unlinkTemp (p : String)
  | lateEngineWrite (p : String)
deriving Repr, DecidableEq

/-- The `emit_audio` body of `PiperStream._run`: create the temporary artifact,
run `_generate` and `_read` inside `try`, and unconditionally `os.unlink` the
artifact in `finally`. When the caller cancels the await on the uncancellable
`_generate` executor job, the `finally` runs while the subprocess is still
alive; if the engine then writes `--output_file`, the write lands after the
unlink and nothing removes the path again. Returns the final filesystem, the
action trace, and the result. -/
def emitAudio (fs : FS) (temp : String) (out : EngineOutcome) :
    FS × List BridgeAction × Except RunError (List Int) :=
  let fs1 := fs.create temp
  let step : FS × List BridgeAction × Except RunError (List Int) :=
    match out with
    | .cancelDuringGenerate _ =>
        (fs1, [.createTemp temp, .spawnEngine], .error .cancelled)
    | .spawnFailure =>
        (fs1, [.createTemp temp, .spawnEngine], .error .engineFailure)
    | .nonzeroExit =>
        (fs1, [.createTemp temp, .spawnEngine], .error .engineFailure)
    | .wrote c cancelRead =>
        let fs2 := fs1.write temp c
        if cancelRead then (fs2, [.createTemp temp, .spawnEngine], .error .cancelled)
        else
          match readWav c with
          | .ok samples => (fs2, [.createTemp temp, .spawnEngine], .ok samples)
          | .error e => (fs2, [.createTemp temp, .spawnEngine], .error (.decodeFailure e))
  let fs2 := step.1.unlink temp
  match out with
  | .cancelDuringGenerate (some c) =>
      (fs2.write temp c,
       step.2.1 ++ [.unlinkTemp temp, .lateEngineWrite temp], step.2.2)
  | _ => (fs2, step.2.1 ++ [.unlinkTemp temp], step.2.2)

/-- `PiperStream._run`: the eager `os.path.exists` checks on the binary and
model paths (raising `FileNotFoundError` naming the missing path), then the
`emit_audio` loop. -/
def runStream (fs : FS) (piperPath modelPath temp : String) (out : EngineOutcome) :
    FS × List BridgeAction × Except RunError (List Int) :=
  if fs.pathExists piperPath = false then (fs, [], .error (.notFound piperPath))
  else if fs.pathExists modelPath = false then (fs, [], .error (.notFound modelPath))
  else emitAudio fs temp out

/-! ### The latency correlation tracker (`LatencyTracker`) -/

/-- A metrics event as duck-typed by `on_metrics_collected`: each recognized
timing attribute may be present or absent, independently of the others, along
with the optional `speech_id`. Durations are seconds. -/
structure Metric where
  end_of_utterance_delay : Option ℚ := none
  ttft : Option ℚ := none
  ttfb : Option ℚ := none
  speech_id : Option String := none
deriving Repr, DecidableEq

/-- `LatencyTracker._stt_latency_ms`. -/
def stt_latency_ms (m : Metric) : Option ℚ :=
  m.end_of_utterance_delay.map (fun s => s * 1000)

/-- `LatencyTracker._llm_latency_ms`. -/
def llm_latency_ms (m : Metric) : Option ℚ := m.ttft.map (fun s => s * 1000)

/-- `LatencyTracker._tts_latency_ms`. -/
def tts_latency_ms (m : Metric) : Option ℚ := m.ttfb.map (fun s => s * 1000)

/-- The per-key record `self.parts[key]`: a mapping from part name
(stt/llm/tts) to the latest observed millisecond value. -/
structure PartMap where
  stt : Option ℚ := none
  llm : Option ℚ := none
  tts : Option ℚ := none
deriving Repr, DecidableEq

/-- The tracker's table `self.parts`. -/
abbrev Table := String → Option PartMap

/-- The table of a freshly constructed tracker. -/
def emptyTable : Table := fun _ => none

/-- `t[k] = pm`. -/
def Table.set (t : Table) (k : String) (pm : PartMap) : Table :=
  fun q => if q = k then some pm else t q

/-- `t.pop(k, None)`. -/
def Table.pop (t : Table) (k : String) : Table :=
  fun q => if q = k then none else t q

/-- One `logger.info` emission of the tracker. -/
inductive LogLine
  | sttLog (room : String) (ms : ℚ)
  | llmLog (room : String) (ms : ℚ)
  | ttsLog (room : String) (ms : ℚ)
  | totalLog (room key : String) (stt llm tts total : ℚ)
deriving Repr, DecidableEq

/-- The `if/elif/elif` logging chain at the top of `on_metrics_collected`:
at most one line, preferring stt over llm over tts. -/
def logsFor (room : String) (m : Metric) : List LogLine :=
  match stt_latency_ms m, llm_latency_ms m, tts_latency_ms m with
  | some v, _, _ => [.sttLog room v]
  | none, some v, _ => [.llmLog room v]
  | none, none, some v => [.ttsLog room v]
  | none, none, none => []

/-- The completed end-to-end observation for one correlation key. -/
structure CompletedLatency where
  key : String
  stt : ℚ
  llm : ℚ
  tts : ℚ
  total : ℚ
deriving Repr, DecidableEq

/-- The update the three independent `if` statements apply to
`self.parts.setdefault(key, {})`: each recognized timing field the event
carries overwrites the corresponding part of the stored record. -/
def updatedPartMap (t : Table) (m : Metric) (k : String) : PartMap :=
  let pm0 := (t k).getD {}
  let pm1 := match stt_latency_ms m with
    | some v => { pm0 with stt := some v }
    | none => pm0
  let pm2 := match llm_latency_ms m with
    | some v => { pm1 with llm := some v }
    | none => pm1
  match tts_latency_ms m with
    | some v => { pm2 with tts := some v }
    | none => pm2

/-- The result of one `on_metrics_collected` call: the new table, the log
lines emitted, and the completed observation, if any. -/
structure ObserveResult where
  table : Table
  logs : List LogLine
  completed : Option CompletedLatency

/-- `LatencyTracker.on_metrics_collected`: log the classified latency, stop on
a falsy `speech_id` (`if not key: return`), otherwise update the record via
`setdefault` and the three `if`s; when all three parts are present afterwards,
log the combined total, remove the key, and surface the combined observation as
the returned `CompletedLatency` (the spec's `observe` contract — in the code
this emission is the combined `logger.info` line, produced exactly when a
record completes). -/
def on_metrics_collected (room : String) (t : Table) (m : Metric) : ObserveResult :=
  let logs := logsFor room m
  match m.speech_id with
  | none => ⟨t, logs, none⟩
  | some k =>
    if k = "" then ⟨t, logs, none⟩
    else
      let pm := updatedPartMap t m k
      let t1 := t.set k pm
      match pm.stt, pm.llm, pm.tts with
      | some s, some l, some v =>
          ⟨t1.pop k, logs ++ [.totalLog room k s l v (s + l + v)],
           some ⟨k, s, l, v, s + l + v⟩⟩
      | _, _, _ => ⟨t1, logs, none⟩

/-- Fold a sequence of events through the tracker, collecting every completed
observation. -/
def observeSeq (room : String) (t : Table) : List Metric → Table × List CompletedLatency
  | [] => (t, [])
  | m :: ms =>
    let r := on_metrics_collected room t m
    let rest := observeSeq room r.table ms
    (rest.1, r.completed.toList ++ rest.2)

/-! ### Concrete fixtures used by witnesses and counterexamples -/

/-- A filesystem holding the binary and model paths (both executable). -/
def fsBoth : FS :=
  { contents := fun p => if p = "piper" ∨ p = "model" then some none else none,
    executable := fun _ => true }

/-- The empty filesystem. -/
def fsEmpty : FS := { contents := fun _ => none, executable := fun _ => false }

/-- A filesystem where the binary and model paths exist but nothing is
executable. -/
def fsNoExec : FS :=
  { contents := fun p => if p = "piper" ∨ p = "model" then some none else none,
    executable := fun _ => false }

/-- An event carrying none of the three timing fields but a truthy key. -/
def mNoFields : Metric := { speech_id := some "x" }

/-- An event carrying two timing fields at once. -/
def mTwoFields : Metric :=
  { end_of_utterance_delay := some 1, ttft := some 2, speech_id := some "k" }

/-- A recognition event for key `a`: 0.1 s = 100 ms. -/
def mSttA : Metric := { end_of_utterance_delay := some (1 / 10), speech_id := some "a" }

/-- A generation event for key `a`: 0.2 s = 200 ms. -/
def mLlmA : Metric := { ttft := some (1 / 5), speech_id := some "a" }

/-- A synthesis event for key `a`: 0.05 s = 50 ms. -/
def mTtsA : Metric := { ttfb := some (1 / 20), speech_id := some "a" }

/-- The tracker table after observing the stt and llm events for key `a`. -/
def tAfter2 : Table := (observeSeq "room" emptyTable [mSttA, mLlmA]).1

/-- A table where key `b` already stores a first stt observation of 999 ms. -/
def tB : Table := Table.set emptyTable "b" ⟨some 999, none, none⟩

/-- A second recognition event for key `b`: 0.03 s = 30 ms. -/
def mStt2 : Metric := { end_of_utterance_delay := some (3 / 100), speech_id := some "b" }

/-- A keyless recognition event. -/
def mKeyless1 : Metric := { end_of_utterance_delay := some 1 }

/-- A keyless synthesis event. -/
def mKeyless2 : Metric := { ttfb := some 2 }

/-- A synthesis event whose key is the empty string (falsy in Python). -/
def mEmptyKey : Metric := { ttfb := some 1, speech_id := some "" }

/-- An event carrying exactly one timing field. -/
def mOnlyStt : Metric := { end_of_utterance_delay := some 2, speech_id := some "s1" }

/-! ### Supporting lemmas -/

theorem floor_int_div_two (k : ℤ) : ⌊(k : ℚ) / 2⌋ = k / 2 := by
  have h := Rat.floor_intCast_div_natCast k 2
  norm_num at h
  exact h

theorem ratTrunc_intCast_div_two (k : ℤ) : ratTrunc ((k : ℚ) / 2) = k.tdiv 2 := by
  unfold ratTrunc
  rcases le_or_lt 0 k with hk | hk
  · have hq : (0 : ℚ) ≤ (k : ℚ) / 2 := by positivity
    rw [if_pos hq, floor_int_div_two, Int.tdiv_eq_ediv hk (by norm_num)]
  · have hq : ¬ (0 : ℚ) ≤ (k : ℚ) / 2 := by
      push_neg
      apply div_neg_of_neg_of_pos
      · exact_mod_cast hk
      · norm_num
    rw [if_neg hq]
    have hneg : -((k : ℚ) / 2) = ((-k : ℤ) : ℚ) / 2 := by push_cast; ring
    rw [hneg, floor_int_div_two]
    have h1 : (-k).tdiv 2 = -k / 2 := Int.tdiv_eq_ediv (by omega) (by norm_num)
    have h2 : (-k).tdiv 2 = -(k.tdiv 2) := Int.neg_tdiv k 2
    omega

theorem wrapInt16_eq_self {v : ℤ} (h1 : -32768 ≤ v) (h2 : v < 32768) :
    wrapInt16 v = v := by
  simp only [wrapInt16]
  split <;> omega

theorem int16OfBytes_range (lo hi : Nat) :
    -32768 ≤ int16OfBytes lo hi ∧ int16OfBytes lo hi < 32768 := by
  simp only [int16OfBytes]
  split <;> omega

theorem meanAstypeInt16_eq_specAvg {a b : ℤ}
    (ha1 : -32768 ≤ a) (ha2 : a < 32768) (hb1 : -32768 ≤ b) (hb2 : b < 32768) :
    meanAstypeInt16 a b = specDirectIntAvg a b := by
  unfold meanAstypeInt16 specDirectIntAvg
  have hcast : ((a : ℚ) + (b : ℚ)) = ((a + b : ℤ) : ℚ) := by push_cast; ring
  rw [hcast, ratTrunc_intCast_div_two]
  have hb : -32768 ≤ (a + b).tdiv 2 ∧ (a + b).tdiv 2 < 32768 := by
    rcases le_or_lt 0 (a + b) with h | h
    · rw [Int.tdiv_eq_ediv h (by norm_num)]
      omega
    · have h2 : (-(a + b)).tdiv 2 = -(a + b) / 2 :=
        Int.tdiv_eq_ediv (by omega) (by norm_num)
      have h3 : (-(a + b)).tdiv 2 = -((a + b).tdiv 2) := Int.neg_tdiv _ _
      omega
  exact wrapInt16_eq_self hb.1 hb.2

theorem fromBufferInt16_range :
    ∀ (bytes : List Nat) (samples : List Int),
      fromBufferInt16 bytes = some samples →
      ∀ x ∈ samples, -32768 ≤ x ∧ x < 32768
  | [], samples, h, x, hx => by
      simp only [fromBufferInt16, Option.some.injEq] at h
      subst h
      simp at hx
  | [b], samples, h, x, hx => by
      simp [fromBufferInt16] at h
  | lo :: hi :: rest, samples, h, x, hx => by
      simp only [fromBufferInt16, Option.map_eq_some'] at h
      obtain ⟨l, hl, rfl⟩ := h
      rcases List.mem_cons.mp hx with rfl | hx2
      · exact int16OfBytes_range lo hi
      · exact fromBufferInt16_range rest l hl x hx2

theorem reshapePairs_mem :
    ∀ (samples : List Int) (frames : List (Int × Int)),
      reshapePairs samples = some frames →
      ∀ p ∈ frames, p.1 ∈ samples ∧ p.2 ∈ samples
  | [], frames, h, p, hp => by
      simp only [reshapePairs, Option.some.injEq] at h
      subst h
      simp at hp
  | [a], frames, h, p, hp => by
      simp [reshapePairs] at h
  | a :: b :: rest, frames, h, p, hp => by
      simp only [reshapePairs, Option.map_eq_some'] at h
      obtain ⟨l, hl, rfl⟩ := h
      rcases List.mem_cons.mp hp with rfl | hp2
      · constructor
        · exact List.mem_cons_self _ _
        · exact List.mem_cons_of_mem _ (List.mem_cons_self _ _)
      · have := reshapePairs_mem rest l hl p hp2
        exact ⟨List.mem_cons_of_mem _ (List.mem_cons_of_mem _ this.1),
               List.mem_cons_of_mem _ (List.mem_cons_of_mem _ this.2)⟩

/-! ### Claim C1 (corrected) -/

/-- C1 counterexample: cancelling the await on the uncancellable `_generate`
executor job lets the subprocess write the output file after the `finally` has
unlinked the (empty) temp file — the path is re-created and never removed, so
after `_run` raises the cancellation, the temporary artifact still exists on
the filesystem: it leaks on exactly the cancellation exit path the claim
covers. -/
theorem cancel_leak_cex :
    fsBoth.pathExists "piper" = true ∧ fsBoth.pathExists "model" = true ∧
    (runStream fsBoth "piper" "model" "tmp.wav"
        (.cancelDuringGenerate (some none))).2.2 = .error .cancelled ∧
    ((runStream fsBoth "piper" "model" "tmp.wav"
        (.cancelDuringGenerate (some none))).1).pathExists "tmp.wav" = true :=
  ⟨by decide, by decide, rfl, by decide⟩

/-- C1 amended: for every synthesize call past the eager path checks, the
temporary artifact path does not exist after `_run` returns or raises on every
exit path — success, subprocess failure (non-zero exit or spawn failure),
decode failure, cancellation during the `_read` await, and cancellation during
the `_generate` await when the engine does not write its output after the
cleanup — EXCEPT the interleaving in which cancellation lands during the
`_generate` await and the uncancellable engine subprocess writes the output
file after the `finally` has unlinked the path: then the re-created artifact
persists after `_run` raises (nothing in the code removes it again). -/
theorem temp_removed_except_cancel_leak (fs : FS)
    (piperPath modelPath temp : String)
    (hp : fs.pathExists piperPath = true) (hm : fs.pathExists modelPath = true) :
    (∀ out : EngineOutcome,
       (∀ c, out ≠ .cancelDuringGenerate (some c)) →
       ((runStream fs piperPath modelPath temp out).1).pathExists temp = false) ∧
    (∀ c, ((runStream fs piperPath modelPath temp
        (.cancelDuringGenerate (some c))).1).pathExists temp = true) := by
  have hrun : ∀ out : EngineOutcome,
      runStream fs piperPath modelPath temp out = emitAudio fs temp out := by
    intro out
    unfold runStream
    rw [hp]
    simp only [Bool.true_eq_false, if_false]
    rw [hm]
    simp only [Bool.true_eq_false, if_false]
  constructor
  · intro out hno
    rw [hrun]
    cases out with
    | cancelDuringGenerate lw =>
      cases lw with
      | none => simp [emitAudio, FS.unlink, FS.pathExists]
      | some c => exact absurd rfl (hno c)
    | spawnFailure => simp [emitAudio, FS.unlink, FS.pathExists]
    | nonzeroExit => simp [emitAudio, FS.unlink, FS.pathExists]
    | wrote c cancelRead => simp [emitAudio, FS.unlink, FS.pathExists]
  · intro c
    rw [hrun]
    simp [emitAudio, FS.write, FS.pathExists]

/-- Witness for the amended C1 at a concrete filesystem: removal on a
non-leaking outcome, persistence on the cancellation-leak outcome. -/
theorem temp_removed_except_cancel_leak_witness :
    fsBoth.pathExists "piper" = true ∧ fsBoth.pathExists "model" = true ∧
    ((runStream fsBoth "piper" "model" "tmp.wav" .spawnFailure).1).pathExists
      "tmp.wav" = false ∧
    ((runStream fsBoth "piper" "model" "tmp.wav"
        (.cancelDuringGenerate (some none))).1).pathExists "tmp.wav" = true := by
  have h := temp_removed_except_cancel_leak fsBoth "piper" "model" "tmp.wav"
      (by decide) (by decide)
  exact ⟨by decide, by decide,
    h.1 .spawnFailure (fun c hc => EngineOutcome.noConfusion hc), h.2 none⟩

/-! ### Claim C4 (corrected) -/

/-- C4 counterexample: with the binary path present but not executable (and the
model present), the claim demands an eager `NotFoundError` with no subprocess
spawn and no temporary artifact; instead the call passes the eager checks,
creates the temporary artifact, attempts the spawn, and surfaces the failure as
an engine failure. -/
theorem eager_check_ignores_executability_cex :
    fsNoExec.pathExists "piper" = true ∧
    fsNoExec.executable "piper" = false ∧
    (runStream fsNoExec "piper" "model" "tmp.wav" .spawnFailure).2.2 =
      .error .engineFailure ∧
    (runStream fsNoExec "piper" "model" "tmp.wav" .spawnFailure).2.1 =
      [.createTemp "tmp.wav", .spawnEngine, .unlinkTemp "tmp.wav"] := by
  refine ⟨by decide, by decide, rfl, rfl⟩

/-- C4 amended: if the synthesis binary path does not exist, or it exists but
the model path does not, the call fails eagerly with the not-found error naming
the missing path, with no subprocess spawned, no temporary artifact created
(empty action trace) and the filesystem unchanged. Executability is never
checked: a binary that exists but is not executable passes the eager checks and
fails later as an engine failure (see the counterexample). -/
theorem eager_notfound_missing_path (fs : FS) (piperPath modelPath temp : String)
    (out : EngineOutcome) :
    (fs.pathExists piperPath = false →
       runStream fs piperPath modelPath temp out =
         (fs, [], .error (.notFound piperPath))) ∧
    (fs.pathExists piperPath = true → fs.pathExists modelPath = false →
       runStream fs piperPath modelPath temp out =
         (fs, [], .error (.notFound modelPath))) := by
  constructor
  · intro h
    unfold runStream
    rw [h]
    simp
  · intro h1 h2
    unfold runStream
    rw [h1, h2]
    simp

/-- Witness for the amended C4 at a concrete filesystem. -/
theorem eager_notfound_missing_path_witness :
    fsEmpty.pathExists "piper" = false ∧
    runStream fsEmpty "piper" "model" "tmp.wav" .spawnFailure =
      (fsEmpty, [], .error (.notFound "piper")) :=
  ⟨by decide,
   (eager_notfound_missing_path fsEmpty "piper" "model" "tmp.wav" .spawnFailure).1
     (by decide)⟩

/-! ### Claim C2 -/

/-- C2: for every well-formed 16-bit stereo container (its bytes reinterpret as
int16 samples, which group into frames of two), the decoded output equals, per
sample frame, the average of the two channel samples under the same truncation
rule as direct integer averaging (`specDirectIntAvg`, division truncating
toward zero). -/
theorem stereo_downmix_correct (c : Container) (samples : List Int)
    (frames : List (Int × Int))
    (h2 : c.nchannels = 2) (_hw : c.sampwidth = 2)
    (hsamples : fromBufferInt16 c.data = some samples)
    (hframes : reshapePairs samples = some frames) :
    readWav (some c) = .ok (frames.map (fun p => specDirectIntAvg p.1 p.2)) := by
  have hmap : frames.map (fun p => meanAstypeInt16 p.1 p.2) =
      frames.map (fun p => specDirectIntAvg p.1 p.2) := by
    apply List.map_congr_left
    intro p hp
    have hmem := reshapePairs_mem samples frames hframes p hp
    have r1 := fromBufferInt16_range c.data samples hsamples p.1 hmem.1
    have r2 := fromBufferInt16_range c.data samples hsamples p.2 hmem.2
    exact meanAstypeInt16_eq_specAvg r1.1 r1.2 r2.1 r2.2
  simp only [readWav, hsamples, h2, beq_self_eq_true, if_true, hframes, hmap]

/-- Witness for C2: the stereo frames `[100, 200]` and `[4, -4]` (little-endian
16-bit bytes) decode to the mono samples `[150, 0]`. -/
theorem stereo_downmix_correct_witness :
    readWav (some ⟨2, 2, [100, 0, 200, 0, 4, 0, 252, 255]⟩) =
      Except.ok [150, 0] := by
  have h := stereo_downmix_correct ⟨2, 2, [100, 0, 200, 0, 4, 0, 252, 255]⟩
      [100, 200, 4, -4] [(100, 200), (4, -4)] rfl rfl (by decide) (by decide)
  rw [h]
  rfl

/-! ### Claim C5 (corrected) -/

/-- C5 counterexample: a 3-channel container and an 8-bit mono container both
decode without any error — `_read` performs no channel-count or sample-width
validation. The 3-channel data is passed through as if it were mono, and the
8-bit bytes are reinterpreted pairwise as 16-bit samples. -/
theorem unsupported_format_decoded_cex :
    readWav (some ⟨3, 2, [10, 0, 20, 0, 30, 0]⟩) = Except.ok [10, 20, 30] ∧
    readWav (some ⟨1, 1, [10, 20]⟩) = Except.ok [5130] := by
  exact ⟨rfl, rfl⟩

/-- C5 amended: a decoded container whose channel count is anything other
than 2 has its bytes reinterpreted as 16-bit samples and passed through
unchanged, whatever its declared sample width; no unsupported-format error
exists in the code, and the sample width is never inspected. -/
theorem non_stereo_passthrough (c : Container) (samples : List Int)
    (hch : c.nchannels ≠ 2)
    (hsamples : fromBufferInt16 c.data = some samples) :
    readWav (some c) = .ok samples := by
  have hbeq : (c.nchannels == 2) = false := by
    simpa using hch
  simp only [readWav, hsamples, hbeq, Bool.false_eq_true, if_false]

/-- Witness for the amended C5 at a concrete container. -/
theorem non_stereo_passthrough_witness :
    readWav (some ⟨1, 2, [7, 0]⟩) = Except.ok [7] :=
  non_stereo_passthrough ⟨1, 2, [7, 0]⟩ [7] (by decide) (by decide)

/-! ### Supporting lemmas for the tracker -/

theorem updated_fields (t : Table) (m : Metric) (k : String) :
    (updatedPartMap t m k).stt = (stt_latency_ms m).or (((t k).getD {}).stt) ∧
    (updatedPartMap t m k).llm = (llm_latency_ms m).or (((t k).getD {}).llm) ∧
    (updatedPartMap t m k).tts = (tts_latency_ms m).or (((t k).getD {}).tts) := by
  rcases hs : stt_latency_ms m with _ | sv <;>
    rcases hl : llm_latency_ms m with _ | lv <;>
      rcases hv : tts_latency_ms m with _ | vv <;>
        simp [updatedPartMap, hs, hl, hv, Option.or]

theorem observe_truthy_key (room : String) (t : Table) (m : Metric) (k : String)
    (hk : m.speech_id = some k) (hne : k ≠ "") :
    (∀ s l v, updatedPartMap t m k = PartMap.mk (some s) (some l) (some v) →
       on_metrics_collected room t m =
         ⟨(t.set k (updatedPartMap t m k)).pop k,
          logsFor room m ++ [.totalLog room k s l v (s + l + v)],
          some ⟨k, s, l, v, s + l + v⟩⟩) ∧
    ((∀ s l v, updatedPartMap t m k ≠ PartMap.mk (some s) (some l) (some v)) →
       on_metrics_collected room t m =
         ⟨t.set k (updatedPartMap t m k), logsFor room m, none⟩) := by
  constructor
  · intro s l v hpm
    simp only [on_metrics_collected, hk, hne, ite_false, hpm]
  · intro hnot
    rcases hs : (updatedPartMap t m k).stt with _ | s
    · simp only [on_metrics_collected, hk, hne, ite_false, hs]
    · rcases hl : (updatedPartMap t m k).llm with _ | l
      · simp only [on_metrics_collected, hk, hne, ite_false, hs, hl]
      · rcases hv : (updatedPartMap t m k).tts with _ | v
        · simp only [on_metrics_collected, hk, hne, ite_false, hs, hl, hv]
        · exact absurd (by rw [← hs, ← hl, ← hv]) (hnot s l v)

theorem observe_preserves_incomplete (room : String) (t : Table) (m : Metric)
    (hinv : ∀ q pm, t q = some pm →
       pm.stt = none ∨ pm.llm = none ∨ pm.tts = none) :
    ∀ q pm, (on_metrics_collected room t m).table q = some pm →
      pm.stt = none ∨ pm.llm = none ∨ pm.tts = none := by
  intro q pm hq
  rcases hsid : m.speech_id with _ | k
  · rw [show (on_metrics_collected room t m).table = t from by
        simp [on_metrics_collected, hsid]] at hq
    exact hinv q pm hq
  · by_cases hk : k = ""
    · rw [show (on_metrics_collected room t m).table = t from by
          subst hk; simp [on_metrics_collected, hsid]] at hq
      exact hinv q pm hq
    · have hstored : ∀ hfield : (updatedPartMap t m k).stt = none ∨
          (updatedPartMap t m k).llm = none ∨ (updatedPartMap t m k).tts = none,
          pm.stt = none ∨ pm.llm = none ∨ pm.tts = none := by
        intro hfield
        have hnot : ∀ s l v,
            updatedPartMap t m k ≠ PartMap.mk (some s) (some l) (some v) := by
          intro s l v hcon
          rw [hcon] at hfield
          simp at hfield
        rw [(observe_truthy_key room t m k hsid hk).2 hnot] at hq
        simp only [Table.set] at hq
        by_cases hqk : q = k
        · rw [if_pos hqk] at hq
          have hpm := Option.some.inj hq
          subst hpm
          exact hfield
        · rw [if_neg hqk] at hq
          exact hinv q pm hq
      rcases hs : (updatedPartMap t m k).stt with _ | s
      · exact hstored (Or.inl hs)
      · rcases hl : (updatedPartMap t m k).llm with _ | l
        · exact hstored (Or.inr (Or.inl hl))
        · rcases hv : (updatedPartMap t m k).tts with _ | v
          · exact hstored (Or.inr (Or.inr hv))
          · rw [(observe_truthy_key room t m k hsid hk).1 s l v
                (by rw [← hs, ← hl, ← hv])] at hq
            simp only [Table.pop, Table.set] at hq
            by_cases hqk : q = k
            · rw [if_pos hqk] at hq
              exact absurd hq (by simp)
            · rw [if_neg hqk, if_neg hqk] at hq
              exact hinv q pm hq

theorem observeSeq_incomplete (room : String) (ms : List Metric) :
    ∀ t : Table,
      (∀ q pm, t q = some pm → pm.stt = none ∨ pm.llm = none ∨ pm.tts = none) →
      ∀ q pm, (observeSeq room t ms).1 q = some pm →
        pm.stt = none ∨ pm.llm = none ∨ pm.tts = none := by
  induction ms with
  | nil =>
    intro t ht q pm hq
    exact ht q pm hq
  | cons m ms ih =>
    intro t ht q pm hq
    simp only [observeSeq] at hq
    exact ih _ (observe_preserves_incomplete room t m ht) q pm hq

/-- Every record stored in a tracker table reachable from the fresh (empty)
table lacks at least one of the three parts: completion removes the record the
instant all three are present. This justifies the incompleteness hypotheses of
the theorems below. -/
theorem reachable_table_incomplete (room : String) (ms : List Metric) :
    ∀ q pm, (observeSeq room emptyTable ms).1 q = some pm →
      pm.stt = none ∨ pm.llm = none ∨ pm.tts = none :=
  observeSeq_incomplete room ms emptyTable (fun q pm hq => by
    simp [emptyTable] at hq)

/-! ### Claim C3 -/

/-- C3: for every truthy correlation key, after the observe call in which the
third of the three parts becomes present (the updated record has all of stt,
llm, tts), the tracker surfaces the completed observation whose total is the
sum of the three stored part values and removes the key's record, so the key is
absent immediately after; every observe call that does not complete a record
(the updated record still lacks a part, or the key is falsy) surfaces
nothing. -/
theorem observe_completion (room : String) (t : Table) (m : Metric) :
    (∀ k s l v, m.speech_id = some k → k ≠ "" →
        updatedPartMap t m k = PartMap.mk (some s) (some l) (some v) →
        (on_metrics_collected room t m).completed = some ⟨k, s, l, v, s + l + v⟩ ∧
        (on_metrics_collected room t m).table k = none) ∧
    (∀ k, m.speech_id = some k → k ≠ "" →
        (∀ s l v, updatedPartMap t m k ≠ PartMap.mk (some s) (some l) (some v)) →
        (on_metrics_collected room t m).completed = none) ∧
    ((m.speech_id = none ∨ m.speech_id = some "") →
        (on_metrics_collected room t m).completed = none) := by
  refine ⟨?_, ?_, ?_⟩
  · intro k s l v hk hne hpm
    rw [(observe_truthy_key room t m k hk hne).1 s l v hpm]
    exact ⟨rfl, by simp [Table.pop]⟩
  · intro k hk hne hnot
    rw [(observe_truthy_key room t m k hk hne).2 hnot]
  · intro h
    rcases h with h | h <;> simp [on_metrics_collected, h]

/-- Witness for C3: events (key `a`, stt = 100 ms), (key `a`, llm = 200 ms),
(key `a`, tts = 50 ms); the third observe call completes with total 350 ms and
leaves the key absent. -/
theorem observe_completion_witness :
    (on_metrics_collected "room" tAfter2 mTtsA).completed =
      some ⟨"a", 100, 200, 50, 350⟩ ∧
    (on_metrics_collected "room" tAfter2 mTtsA).table "a" = none := by
  have hupd : updatedPartMap tAfter2 mTtsA "a" =
      PartMap.mk (some 100) (some 200) (some 50) := by
    simp [tAfter2, observeSeq, on_metrics_collected, mSttA, mLlmA, mTtsA,
      stt_latency_ms, llm_latency_ms, tts_latency_ms, logsFor, updatedPartMap,
      Table.set, emptyTable]
    norm_num
  have h := (observe_completion "room" tAfter2 mTtsA).1 "a" 100 200 50 rfl
      (by decide) hupd
  refine ⟨?_, h.2⟩
  rw [h.1]
  norm_num

/-! ### Claim C6 (corrected) -/

/-- C6 counterexample: an event carrying none of the three timing fields but a
truthy correlation key does NOT leave the table unchanged — `setdefault`
creates an empty record for the key. -/
theorem unclassified_event_creates_record_cex :
    emptyTable "x" = none ∧
    (on_metrics_collected "room" emptyTable mNoFields).table "x" =
      some (PartMap.mk none none none) :=
  ⟨rfl, by decide⟩

/-- C6 amended: an event carrying none of the three timing fields raises no
error, logs nothing, sets no part and completes nothing (given that the key's
stored record, if any, is incomplete — true of every reachable table, see
`reachable_table_incomplete`); the table is unchanged when the event has no (or
a falsy) key, but a truthy key gains an empty record via `setdefault` when
absent. -/
theorem observe_unclassified (room : String) (t : Table) (m : Metric)
    (h1 : m.end_of_utterance_delay = none) (h2 : m.ttft = none)
    (h3 : m.ttfb = none) :
    ((m.speech_id = none ∨ m.speech_id = some "") →
       on_metrics_collected room t m = ⟨t, [], none⟩) ∧
    (∀ k, m.speech_id = some k → k ≠ "" →
       updatedPartMap t m k = (t k).getD {} ∧
       ((∀ s l v, (t k).getD {} ≠ PartMap.mk (some s) (some l) (some v)) →
          on_metrics_collected room t m =
            ⟨t.set k ((t k).getD {}), [], none⟩)) := by
  have hlogs : logsFor room m = [] := by
    simp [logsFor, stt_latency_ms, llm_latency_ms, tts_latency_ms, h1, h2, h3]
  constructor
  · intro h
    rcases h with h | h <;> simp [on_metrics_collected, h, hlogs]
  · intro k hk hne
    have hupd : updatedPartMap t m k = (t k).getD {} := by
      simp [updatedPartMap, stt_latency_ms, llm_latency_ms, tts_latency_ms,
        h1, h2, h3]
    refine ⟨hupd, fun hnot => ?_⟩
    have hnot2 : ∀ s l v,
        updatedPartMap t m k ≠ PartMap.mk (some s) (some l) (some v) := by
      intro s l v hcon
      rw [hupd] at hcon
      exact hnot s l v hcon
    rw [(observe_truthy_key room t m k hk hne).2 hnot2, hupd, hlogs]

/-- Witness for the amended C6: a field-less event with key `x` against the
empty table creates exactly the empty record for `x`. -/
theorem observe_unclassified_witness :
    on_metrics_collected "room" emptyTable mNoFields =
      ⟨Table.set emptyTable "x" (PartMap.mk none none none), [], none⟩ := by
  have h := ((observe_unclassified "room" emptyTable mNoFields rfl rfl rfl).2
      "x" rfl (by decide)).2
      (fun s l v hcon => by simp [emptyTable] at hcon)
  exact h

/-! ### Claim C7 -/

/-- C7: last-write-wins per part — for every correlation key, observing an
event for a part overwrites any previously stored value of that part with the
latest observation (no averaging, no rejection), and when the record does not
complete, the stored record is exactly the updated one, so a later completion
total (C3: the sum of the stored values) reflects only the latest value of each
part. -/
theorem observe_last_write_wins (t : Table) (m : Metric) (k : String) :
    (∀ d, m.end_of_utterance_delay = some d →
       (updatedPartMap t m k).stt = some (d * 1000)) ∧
    (∀ d, m.ttft = some d → (updatedPartMap t m k).llm = some (d * 1000)) ∧
    (∀ d, m.ttfb = some d → (updatedPartMap t m k).tts = some (d * 1000)) ∧
    (∀ room, m.speech_id = some k → k ≠ "" →
       (∀ s l v, updatedPartMap t m k ≠ PartMap.mk (some s) (some l) (some v)) →
       (on_metrics_collected room t m).table k = some (updatedPartMap t m k)) := by
  refine ⟨?_, ?_, ?_, ?_⟩
  · intro d hd
    rw [(updated_fields t m k).1]
    simp [stt_latency_ms, hd, Option.or]
  · intro d hd
    rw [(updated_fields t m k).2.1]
    simp [llm_latency_ms, hd, Option.or]
  · intro d hd
    rw [(updated_fields t m k).2.2]
    simp [tts_latency_ms, hd, Option.or]
  · intro room hk hne hnot
    rw [(observe_truthy_key room t m k hk hne).2 hnot]
    simp [Table.set]

/-- Witness for C7: key `b` already stores stt = 999 ms; a second stt event of
30 ms overwrites it, and the stored record keeps only the latest value. -/
theorem observe_last_write_wins_witness :
    (updatedPartMap tB mStt2 "b").stt = some 30 ∧
    (on_metrics_collected "room" tB mStt2).table "b" =
      some (updatedPartMap tB mStt2 "b") := by
  have hupd : updatedPartMap tB mStt2 "b" = PartMap.mk (some 30) none none := by
    simp [updatedPartMap, tB, mStt2, stt_latency_ms, llm_latency_ms,
      tts_latency_ms, Table.set, emptyTable]
    norm_num
  have hnot : ∀ s l v,
      updatedPartMap tB mStt2 "b" ≠ PartMap.mk (some s) (some l) (some v) := by
    intro s l v hcon
    rw [hupd] at hcon
    simp at hcon
  constructor
  · exact ((observe_last_write_wins tB mStt2 "b").1 (3 / 100) rfl).trans
      (by norm_num)
  · exact (observe_last_write_wins tB mStt2 "b").2.2.2 "room" rfl (by decide) hnot

/-! ### Claim C8 -/

/-- C8: an event with no correlation key never produces a completed
observation and never creates or updates a stored record: each such call
returns the table unchanged with no completion, and a whole sequence of
keyless events leaves the table unchanged and completes nothing. -/
theorem keyless_events_no_effect (room : String) (t : Table) (ms : List Metric)
    (h : ∀ m ∈ ms, m.speech_id = none) :
    observeSeq room t ms = (t, []) ∧
    ∀ m ∈ ms, on_metrics_collected room t m = ⟨t, logsFor room m, none⟩ := by
  have hsingle : ∀ (t2 : Table) (m : Metric), m.speech_id = none →
      on_metrics_collected room t2 m = ⟨t2, logsFor room m, none⟩ := by
    intro t2 m hm
    simp [on_metrics_collected, hm]
  constructor
  · induction ms generalizing t with
    | nil => rfl
    | cons m ms ih =>
      have hm := h m (List.mem_cons_self m ms)
      have hrest : ∀ m2 ∈ ms, m2.speech_id = none :=
        fun m2 hm2 => h m2 (List.mem_cons_of_mem m hm2)
      simp [observeSeq, hsingle t m hm, ih t hrest]
  · intro m hm
    exact hsingle t m (h m hm)

/-- Witness for C8: two keyless events against the empty table. -/
theorem keyless_events_no_effect_witness :
    observeSeq "room" emptyTable [mKeyless1, mKeyless2] = (emptyTable, []) := by
  have h := keyless_events_no_effect "room" emptyTable [mKeyless1, mKeyless2]
      (by intro m hm
          rcases List.mem_cons.mp hm with rfl | hm2
          · rfl
          · rcases List.mem_cons.mp hm2 with rfl | hm3
            · rfl
            · cases hm3)
  exact h.1

/-! ### Claim C9 (corrected) -/

/-- C9 counterexample: an event carrying two timing fields (both
`end_of_utterance_delay` and `ttft`) updates TWO parts of its key's record in a
single observe call — the classification is not into exactly one kind. -/
theorem multi_field_updates_two_parts_cex :
    emptyTable "k" = none ∧
    (on_metrics_collected "room" emptyTable mTwoFields).table "k" =
      some (PartMap.mk (some 1000) (some 2000) none) := by
  refine ⟨rfl, ?_⟩
  have hupd : updatedPartMap emptyTable mTwoFields "k" =
      PartMap.mk (some 1000) (some 2000) none := by
    simp [updatedPartMap, mTwoFields, stt_latency_ms, llm_latency_ms,
      tts_latency_ms, emptyTable]
    norm_num
  have hnot : ∀ s l v, updatedPartMap emptyTable mTwoFields "k" ≠
      PartMap.mk (some s) (some l) (some v) := by
    intro s l v hcon
    rw [hupd] at hcon
    simp at hcon
  rw [(observe_truthy_key "room" emptyTable mTwoFields "k" rfl (by decide)).2 hnot]
  simp [Table.set, hupd]

/-- C9 amended: the three timing fields are tested independently; an observe
call updates, for each recognized timing field the event carries, exactly the
corresponding part, and leaves the parts whose fields are absent unchanged — so
an event carrying exactly one timing field updates exactly one part, while an
event carrying several updates one part per field carried. -/
theorem observe_updates_part_per_field (t : Table) (m : Metric) (k : String) :
    ((m.end_of_utterance_delay = none →
        (updatedPartMap t m k).stt = ((t k).getD {}).stt) ∧
     (∀ d, m.end_of_utterance_delay = some d →
        (updatedPartMap t m k).stt = some (d * 1000))) ∧
    ((m.ttft = none → (updatedPartMap t m k).llm = ((t k).getD {}).llm) ∧
     (∀ d, m.ttft = some d → (updatedPartMap t m k).llm = some (d * 1000))) ∧
    ((m.ttfb = none → (updatedPartMap t m k).tts = ((t k).getD {}).tts) ∧
     (∀ d, m.ttfb = some d → (updatedPartMap t m k).tts = some (d * 1000))) := by
  refine ⟨⟨?_, ?_⟩, ⟨?_, ?_⟩, ⟨?_, ?_⟩⟩
  · intro hd
    rw [(updated_fields t m k).1]
    simp [stt_latency_ms, hd, Option.or]
  · intro d hd
    rw [(updated_fields t m k).1]
    simp [stt_latency_ms, hd, Option.or]
  · intro hd
    rw [(updated_fields t m k).2.1]
    simp [llm_latency_ms, hd, Option.or]
  · intro d hd
    rw [(updated_fields t m k).2.1]
    simp [llm_latency_ms, hd, Option.or]
  · intro hd
    rw [(updated_fields t m k).2.2]
    simp [tts_latency_ms, hd, Option.or]
  · intro d hd
    rw [(updated_fields t m k).2.2]
    simp [tts_latency_ms, hd, Option.or]

/-- Witness for the amended C9: an event carrying only the stt field updates
the stt part and leaves llm and tts untouched. -/
theorem observe_updates_part_per_field_witness :
    (updatedPartMap emptyTable mOnlyStt "s1").stt = some 2000 ∧
    (updatedPartMap emptyTable mOnlyStt "s1").llm = none ∧
    (updatedPartMap emptyTable mOnlyStt "s1").tts = none := by
  have h := observe_updates_part_per_field emptyTable mOnlyStt "s1"
  refine ⟨?_, ?_, ?_⟩
  · rw [h.1.2 2 rfl]
    norm_num
  · rw [h.2.1.1 rfl]
    rfl
  · rw [h.2.2.1 rfl]
    rfl

/-! ### Claim C10 -/

/-- C10: an event whose correlation key is the empty string (the only falsy
non-absent key value a string-or-none `speech_id` can take) is treated exactly
like an event with no key: it is logged when classifiable, but never creates or
updates a stored record and never produces a completed observation — the
tracker state is returned unchanged. -/
theorem falsy_key_no_record (room : String) (t : Table) (m : Metric)
    (h : m.speech_id = none ∨ m.speech_id = some "") :
    on_metrics_collected room t m = ⟨t, logsFor room m, none⟩ ∧
    ((stt_latency_ms m).isSome ∨ (llm_latency_ms m).isSome ∨
        (tts_latency_ms m).isSome →
      logsFor room m ≠ []) := by
  constructor
  · rcases h with h | h <;> simp [on_metrics_collected, h]
  · intro hcls
    rcases hs : stt_latency_ms m with _ | v
    · rcases hl : llm_latency_ms m with _ | v
      · rcases hv : tts_latency_ms m with _ | v
        · rw [hs, hl, hv] at hcls
          simp at hcls
        · simp [logsFor, hs, hl, hv]
      · simp [logsFor, hs, hl]
    · simp [logsFor, hs]

/-- Witness for C10: a tts event with the empty-string key is logged but
leaves the table unchanged and completes nothing. -/
theorem falsy_key_no_record_witness :
    on_metrics_collected "room" emptyTable mEmptyKey =
      ⟨emptyTable, logsFor "room" mEmptyKey, none⟩ ∧
    logsFor "room" mEmptyKey ≠ [] := by
  have h := falsy_key_no_record "room" emptyTable mEmptyKey (Or.inr rfl)
  exact ⟨h.1, h.2 (Or.inr (Or.inr rfl))⟩

end PiperSpec
